import Mathlib

/-!
Verification of `docx2python/iterators.py`.

The module manipulates uniformly nested Python lists of strings
(tables → rows → cells → paragraphs → runs).  We embed the Python value
universe for these functions as the inductive type `STree`: a Python
object that is either a `str` or a `list` of such objects.

Python-to-Lean modelling conventions used throughout this file:
* Python `list` indices and `enumerate` counters are `Nat`.
* A `depth` argument that Python validates at run time is an `Int`
  (any integer may be passed in); functions that can raise become
  `Except String _` with the error message carried verbatim.
* Iterating a Python `str` yields its one-character strings; this is
  modelled faithfully by `STree.children`.
* `str.join` over a list that contains a non-`str` raises `TypeError`;
  fallible joins are therefore modelled with `Option`.
-/

/-- A Python value reachable by the iterators module: a `str` or a `list`. -/
inductive STree where
  | str : String → STree
  | list : List STree → STree

/-- Python iteration (`for x in obj`).  Iterating a `list` yields its
elements; iterating a `str` yields its characters as 1-character strings. -/
def STree.children : STree → List STree
  | .str s => s.data.map fun c => .str (String.singleton c)
  | .list ts => ts

/-- Model of Python `str.join` on a list of strings: the separator is
inserted between each pair of adjacent items, with no leading or trailing
separator, and the empty list joins to `""`. -/
def pyJoin (j : String) : List String → String
  | [] => ""
  | [s] => s
  | s :: s' :: rest => s ++ j ++ pyJoin j (s' :: rest)

/-- Extract the strings of a Python list, failing (like `str.join`, with
`TypeError`) when an element is not a `str`. -/
def getStrs : List STree → Option (List String)
  | [] => some []
  | .str s :: ts => (getStrs ts).map fun l => s :: l
  | .list _ :: _ => none

/-- Worker for `join_leaves`, structurally recursive on the number of
levels still to descend (`to_depth - _depth` in the source).  At fuel 0
(`_depth == to_depth`) the node is joined with `joint.join(...)`; below
that, the list comprehension
`[join_leaves(joint, b, to_depth, _depth + 1) for b in str_tree]`
recurses into each child.  A `str` node iterates into its characters,
as Python iteration does. -/
def joinLeavesGo (joint : String) : Nat → STree → Option STree
  | 0, .list ts => (getStrs ts).map fun l => .str (pyJoin joint l)
  | 0, .str s => some (.str (pyJoin joint (s.data.map String.singleton)))
  | fuel + 1, .list ts =>
      (ts.mapM fun b => joinLeavesGo joint fuel b).map STree.list
  | fuel + 1, .str s =>
      ((s.data.map String.singleton).mapM fun c =>
        joinLeavesGo joint fuel (.str c)).map STree.list

/-- `join_leaves(joint, str_tree, to_depth, _depth)` from the source.
When `_depth == to_depth` the node is collapsed with `joint.join`; when
`_depth < to_depth` the recursion descends one level into each child.
When `_depth > to_depth` the Python recursion can never reach the join
condition again and diverges (`RecursionError`); that run-time failure is
modelled as `none`. -/
def join_leaves (joint : String) (str_tree : STree) (to_depth : Nat)
    (d : Nat := 0) : Option STree :=
  if to_depth < d then none else joinLeavesGo joint (to_depth - d) str_tree

/-- `enum_at_depth(nested, 1)`: `yield from (((i,), x) for i, x in enumerate(nested))`. -/
def enumD1 (nested : STree) : List (List Nat × STree) :=
  nested.children.enum.map fun p => ([p.1], p.2)

/-- The `depth == 2` branch of `enum_at_depth`:
`for i, x in enumerate(nested): for j, y in enum_at_depth(x, 1): yield ((i, *j), y)`.
(The inner call has literal depth 1, which never raises, so it is the
plain list `enumD1`.) -/
def enumD2 (nested : STree) : List (List Nat × STree) :=
  nested.children.enum.flatMap fun p =>
    (enumD1 p.2).map fun q => (p.1 :: q.1, q.2)

/-- The `depth == 3` branch of `enum_at_depth`. -/
def enumD3 (nested : STree) : List (List Nat × STree) :=
  nested.children.enum.flatMap fun p =>
    (enumD2 p.2).map fun q => (p.1 :: q.1, q.2)

/-- The `depth == 4` branch of `enum_at_depth`. -/
def enumD4 (nested : STree) : List (List Nat × STree) :=
  nested.children.enum.flatMap fun p =>
    (enumD3 p.2).map fun q => (p.1 :: q.1, q.2)

/-- The `depth == 5` branch of `enum_at_depth`. -/
def enumD5 (nested : STree) : List (List Nat × STree) :=
  nested.children.enum.flatMap fun p =>
    (enumD4 p.2).map fun q => (p.1 :: q.1, q.2)

/-- `enum_at_depth(nested, depth)`: dispatch on the five supported depths
exactly as the Python `if/elif` chain does, raising
`ValueError("depth argument must be 1, 2, 3, 4, or 5")` otherwise.
The generator's eventual output is modelled as the eager list of its
yielded pairs; the raise is the `Except.error` case. -/
def enum_at_depth (nested : STree) (depth : Int) :
    Except String (List (List Nat × STree)) :=
  if depth = 1 then .ok (enumD1 nested)
  else if depth = 2 then .ok (enumD2 nested)
  else if depth = 3 then .ok (enumD3 nested)
  else if depth = 4 then .ok (enumD4 nested)
  else if depth = 5 then .ok (enumD5 nested)
  else .error "depth argument must be 1, 2, 3, 4, or 5"

/-- `iter_at_depth(nested, depth)`: each of the five depth branches
returns `(x for _, x in enum_at_depth(nested, depth))`; any other depth
raises `ValueError("depth argument must be 1, 2, 3, 4, or 5")`. -/
def iter_at_depth (nested : STree) (depth : Int) :
    Except String (List STree) :=
  if depth = 1 then (enum_at_depth nested depth).map (List.map Prod.snd)
  else if depth = 2 then (enum_at_depth nested depth).map (List.map Prod.snd)
  else if depth = 3 then (enum_at_depth nested depth).map (List.map Prod.snd)
  else if depth = 4 then (enum_at_depth nested depth).map (List.map Prod.snd)
  else if depth = 5 then (enum_at_depth nested depth).map (List.map Prod.snd)
  else .error "depth argument must be 1, 2, 3, 4, or 5"

/-- `iter_tables(tables)` = `iter_at_depth(tables, 1)`. -/
def iter_tables (tables : STree) : Except String (List STree) :=
  iter_at_depth tables 1

/-- `iter_rows(tables)` = `iter_at_depth(tables, 2)`. -/
def iter_rows (tables : STree) : Except String (List STree) :=
  iter_at_depth tables 2

/-- `iter_cells(tables)` = `iter_at_depth(tables, 3)`. -/
def iter_cells (tables : STree) : Except String (List STree) :=
  iter_at_depth tables 3

/-- `iter_paragraphs(tables)` = `iter_at_depth(tables, 4)`. -/
def iter_paragraphs (tables : STree) : Except String (List STree) :=
  iter_at_depth tables 4

/-- `enum_tables(tables)` = `enum_at_depth(tables, 1)`. -/
def enum_tables (tables : STree) : Except String (List (List Nat × STree)) :=
  enum_at_depth tables 1

/-- `enum_rows(tables)` = `enum_at_depth(tables, 2)`. -/
def enum_rows (tables : STree) : Except String (List (List Nat × STree)) :=
  enum_at_depth tables 2

/-- `enum_cells(tables)` = `enum_at_depth(tables, 3)`. -/
def enum_cells (tables : STree) : Except String (List (List Nat × STree)) :=
  enum_at_depth tables 3

/-- `enum_paragraphs(tables)` = `enum_at_depth(tables, 4)`. -/
def enum_paragraphs (tables : STree) : Except String (List (List Nat × STree)) :=
  enum_at_depth tables 4

/-- Modelled from the spec: the recursive reference definition of
enumeration.  At depth 1 it yields `((i,), item)` for each index `i` in
order; at depth `d + 1` it yields `((i, *sub), item)` for each child `i`
and each `(sub, item)` of the child's enumeration at depth `d`.
(The depth-0 base `[([], t)]` is the natural anchor of that recursion and
is not used by any claim.) -/
def enum_spec : Nat → STree → List (List Nat × STree)
  | 0, t => [([], t)]
  | d + 1, t =>
      t.children.enum.flatMap fun p =>
        (enum_spec d p.2).map fun q => (p.1 :: q.1, q.2)

/-- The docstring/spec fixture
`[[[["a","b"],["c"]],[["d","e"]]], [[["f"],["g","h"]]]]`. -/
def fixtureSeq : STree :=
  .list
    [ .list
        [ .list [.list [.str "a", .str "b"], .list [.str "c"]],
          .list [.list [.str "d", .str "e"]] ],
      .list
        [ .list [.list [.str "f"], .list [.str "g", .str "h"]] ] ]

/-- The runs tree of the `join_leaves` docstring:
`[[[[["run1","run2"],["run3","run4"]]]]]` — run strings at depth 5. -/
def runsTree : STree :=
  .list
    [ .list
        [ .list
            [ .list
                [ .list [.str "run1", .str "run2"],
                  .list [.str "run3", .str "run4"] ] ] ] ]

/-- Python item assignment `obj[i0][i1]...[ik] = v` along an address:
replace the subtree at the address with `v`.  Addresses always come from
an enumeration of the same tree, so every index is in range; the
out-of-range and non-list cases (`IndexError`/`TypeError` in Python) are
unreachable on the traced paths and modelled as no-ops. -/
def setAt : STree → List Nat → STree → STree
  | _, [], v => v
  | .list ts, i :: rest, v => .list (ts.set i (setAt (ts.getD i (.list [])) rest v))
  | .str s, _ :: _, _ => .str s

/-- Python `str(x)` for the values wrapped by `get_html_map`: on the
traced paths `x` is always a `str` (paragraphs, cells, rows have been
replaced by strings in the earlier pass), so `str` is the identity.  The
`list` fallback is unreachable on well-formed input. -/
def strOf : STree → String
  | .str s => s
  | .list _ => ""

/-- `"".join(paragraph)`: join the children of a paragraph node. -/
def joinRuns (t : STree) : String :=
  pyJoin "" (t.children.map strOf)

/-- Python `str((i, j, k, m))` on a tuple of non-negative ints:
parenthesized, comma-space separated decimal numbers. -/
def tupleStr (a : List Nat) : String :=
  "(" ++ pyJoin ", " (a.map Nat.repr) ++ ")"

/-- Unwrap an enumeration result that is statically known to succeed
(`enum_at_depth` never raises for the literal depths 1..5). -/
def okList (e : Except String (List (List Nat × STree))) : List (List Nat × STree) :=
  match e with
  | .ok l => l
  | .error _ => []

/-- State-passing translation of `get_html_map`.  `copy.deepcopy(tables)`
creates a fresh, unaliased object graph with the same value, so every
item assignment of the four passes targets the working copy, never the
caller's object.  Each pass folds its loop's in-place assignments, in
yield order, over the working tree; a location is read by the lazy
generator before the pass overwrites it, so enumerating the pre-pass
value is exact.  Returns the html string together with the caller's
object as it stands when the call returns. -/
def get_html_map_go (tables : STree) : String × STree :=
  -- tables_4deep = copy.deepcopy(tables)
  let tables_4deep := tables
  -- prepend index tuple to each paragraph (enumerates the caller's tree)
  let tables_4deep := (okList (enum_at_depth tables 4)).foldl
    (fun w p => setAt w p.1 (.str (tupleStr p.1 ++ " " ++ joinRuns p.2))) tables_4deep
  -- wrap each paragraph in <pre> tags
  let tables_3deep := (okList (enum_at_depth tables_4deep 3)).foldl
    (fun w p => setAt w p.1
      (.str (pyJoin "" (p.2.children.map fun x => "<pre>" ++ strOf x ++ "</pre>")))) tables_4deep
  -- wrap each cell in <td> tags
  let tables_2deep := (okList (enum_at_depth tables_3deep 2)).foldl
    (fun w p => setAt w p.1
      (.str (pyJoin "" (p.2.children.map fun x => "<td>" ++ strOf x ++ "</td>")))) tables_3deep
  -- wrap each row in <tr> tags
  let tables_1deep := (okList (enum_at_depth tables_2deep 1)).foldl
    (fun w p => setAt w p.1
      (.str (pyJoin "" (p.2.children.map fun x => "<tr>" ++ strOf x ++ "</tr>")))) tables_2deep
  -- wrap each table in <table> tags
  let tables_ := pyJoin "" (tables_1deep.children.map fun x =>
    "<table border=\"1\">" ++ strOf x ++ "</table>")
  ("<html><body>" ++ tables_ ++ "</body></html>", tables)

/-- `get_html_map(tables)`: the html string produced by the four passes. -/
def get_html_map (tables : STree) : String :=
  (get_html_map_go tables).1

/-- The well-formed input type of `get_html_map`:
`[[[[["str"]]]]]` — tables of rows of cells of paragraphs of run strings. -/
abbrev TextTable := List (List (List (List (List String))))

/-- Embed a paragraph (list of run strings) as a Python object. -/
def runsToS (p : List String) : STree :=
  .list (p.map .str)

/-- Embed a cell as a Python object. -/
def cellToS (c : List (List String)) : STree :=
  .list (c.map runsToS)

/-- Embed a row as a Python object. -/
def rowToS (r : List (List (List String))) : STree :=
  .list (r.map cellToS)

/-- Embed a table as a Python object. -/
def tableToS (tb : List (List (List (List String)))) : STree :=
  .list (tb.map rowToS)

/-- Embed a whole `TextTable` as the Python object graph passed to
`get_html_map`. -/
def toSTree (t : TextTable) : STree :=
  .list (t.map tableToS)

/-- Pass 1 of the html map, as a pure structure map: paragraph `(i,j,k,m)`
becomes `str((i, j, k, m)) + " " + "".join(paragraph)`. -/
def stage1 (t : TextTable) : List (List (List (List String))) :=
  t.enum.map fun q1 => q1.2.enum.map fun q2 => q2.2.enum.map fun q3 =>
    q3.2.enum.map fun q4 => tupleStr [q1.1, q2.1, q3.1, q4.1] ++ " " ++ pyJoin "" q4.2

/-- Pass 2: each cell becomes the concatenation of its `<pre>`-wrapped
paragraph strings. -/
def stage2 (z : List (List (List (List String)))) : List (List (List String)) :=
  z.map fun tb => tb.map fun r => r.map fun c =>
    pyJoin "" (c.map fun x => "<pre>" ++ x ++ "</pre>")

/-- Pass 3: each row becomes the concatenation of its `<td>`-wrapped cell
strings. -/
def stage3 (y : List (List (List String))) : List (List String) :=
  y.map fun tb => tb.map fun r => pyJoin "" (r.map fun x => "<td>" ++ x ++ "</td>")

/-- Pass 4: each table becomes the concatenation of its `<tr>`-wrapped row
strings. -/
def stage4 (w : List (List String)) : List String :=
  w.map fun tb => pyJoin "" (tb.map fun x => "<tr>" ++ x ++ "</tr>")

/-- The html map as a pure staged computation over the typed input. -/
def htmlModel (t : TextTable) : String :=
  "<html><body>" ++
    pyJoin "" ((stage4 (stage3 (stage2 (stage1 t)))).map fun x =>
      "<table border=\"1\">" ++ x ++ "</table>") ++
    "</body></html>"

/-- Number of tables of a `TextTable`. -/
def nTables (t : TextTable) : Nat :=
  t.length

/-- Total number of rows of a `TextTable`. -/
def nRows (t : TextTable) : Nat :=
  (t.map List.length).sum

/-- Total number of cells of a `TextTable`. -/
def nCells (t : TextTable) : Nat :=
  (t.map fun tb => (tb.map List.length).sum).sum

/-- Total number of paragraphs of a `TextTable`. -/
def nPars (t : TextTable) : Nat :=
  (t.map fun tb => (tb.map fun r => (r.map List.length).sum).sum).sum

/-- No run string of the tree contains the character `<`. -/
def RunsClean (t : TextTable) : Prop :=
  ∀ tb ∈ t, ∀ r ∈ tb, ∀ c ∈ r, ∀ p ∈ c, ∀ s ∈ p, '<' ∉ s.data

/-- Number of occurrences of `n` in a character list: the number of
positions whose suffix starts with `n`. -/
def cnt (n : List Char) : List Char → Nat
  | [] => 0
  | c :: rest => (if n.isPrefixOf (c :: rest) then 1 else 0) + cnt n rest

/-- Number of occurrences of the substring `needle` in `hay`. -/
def countSubstr (needle hay : String) : Nat :=
  cnt needle.data hay.data

/-- A piece of html output that cannot interact with an occurrence of a
needle that starts with `<`: either it contains no `<` at all, or it is a
markup token — it starts with `<`, has no other `<`, and is not a proper
prefix of the needle (so no occurrence can start inside the piece and
continue past its end). -/
def SafePiece (n u : List Char) : Prop :=
  (∀ c ∈ u, c ≠ '<') ∨
    (u.head? = some '<' ∧ (∀ c ∈ u.tail, c ≠ '<') ∧
      ¬(u.isPrefixOf n = true ∧ u.length < n.length))

/-- Uniform list structure down to `d` levels below this node. -/
def wfD : Nat → STree → Prop
  | 0, _ => True
  | _ + 1, .str _ => False
  | d + 1, .list ts => ∀ x ∈ ts, wfD d x

/-- Replace every node `d` levels down by `g address node`, keeping the
surrounding structure: the pure effect of one enumeration-and-assign pass. -/
def mapAtD : Nat → (List Nat → STree → STree) → STree → STree
  | 0, g, t => g [] t
  | _ + 1, _, .str s => .str s
  | d + 1, g, .list ts =>
      .list (ts.enum.map fun p => mapAtD d (fun a y => g (p.1 :: a) y) p.2)

def embed4 (z : List (List (List (List String)))) : STree :=
  .list (z.map fun tb => .list (tb.map fun r => .list (r.map fun c => .list (c.map .str))))

def embed3 (y : List (List (List String))) : STree :=
  .list (y.map fun tb => .list (tb.map fun r => .list (r.map .str)))

def embed2 (w : List (List String)) : STree :=
  .list (w.map fun tb => .list (tb.map .str))

def embed1 (v : List String) : STree :=
  .list (v.map .str)

/-- A character list after which counting distributes over append. -/
def Spl (n s : List Char) : Prop :=
  ∀ b, cnt n (s ++ b) = cnt n s + cnt n b

/-- Concatenation of items each wrapped in opening/closing tag chars. -/
def wrapCat (o c : List Char) (items : List (List Char)) : List Char :=
  (items.map fun s => o ++ s ++ c).foldr (· ++ ·) []

/-- `s` contains no `<` character. -/
def Clean (s : String) : Prop :=
  ∀ c ∈ s.data, c ≠ '<'

/-- The string a cell contributes: its `<pre>`-wrapped paragraph lines. -/
def cellStr (c : List String) : String :=
  pyJoin "" (c.map fun x => "<pre>" ++ x ++ "</pre>")

/-- The string a row contributes: its `<td>`-wrapped cells. -/
def rowStr (r : List (List String)) : String :=
  pyJoin "" (r.map fun c => "<td>" ++ cellStr c ++ "</td>")

/-- The string a table contributes: its `<tr>`-wrapped rows. -/
def tableStr (tb : List (List (List String))) : String :=
  pyJoin "" (tb.map fun r => "<tr>" ++ rowStr r ++ "</tr>")

/-- The whole document built from the paragraph-line tree. -/
def docStr (z : List (List (List (List String)))) : String :=
  "<html><body>" ++
    pyJoin "" (z.map fun tb => "<table border=\"1\">" ++ tableStr tb ++ "</table>") ++
    "</body></html>"

theorem strAppendEmpty (s : String) : s ++ "" = s := by
  apply String.ext
  simp [String.data_append]

theorem getStrs_map_str (l : List String) : getStrs (l.map .str) = some l := by
  induction l with
  | nil => rfl
  | cons s ss ih => simp [getStrs, ih]

theorem pyJoin_cons (j s : String) (ss : List String) :
    pyJoin j (s :: ss) = s ++ (ss.map (j ++ ·)).foldr (· ++ ·) "" := by
  induction ss generalizing s with
  | nil => simp [pyJoin, strAppendEmpty]
  | cons s' rest ih => simp [pyJoin, ih, String.append_assoc]

theorem flatten_map_single {α β : Type} (l : List α) (f : α → β) :
    (l.map fun x => [f x]).flatten = l.map f := by
  induction l with
  | nil => rfl
  | cons x xs ih => simp [ih]

theorem enumD1_eq (t : STree) : enumD1 t = enum_spec 1 t := by
  simp [enumD1, enum_spec, List.flatMap, flatten_map_single]

theorem enumD2_eq (t : STree) : enumD2 t = enum_spec 2 t := by
  simp only [enumD2, enumD1_eq]
  rfl

theorem enumD3_eq (t : STree) : enumD3 t = enum_spec 3 t := by
  simp only [enumD3, enumD2_eq]
  rfl

theorem enumD4_eq (t : STree) : enumD4 t = enum_spec 4 t := by
  simp only [enumD4, enumD3_eq]
  rfl

theorem enumD5_eq (t : STree) : enumD5 t = enum_spec 5 t := by
  simp only [enumD5, enumD4_eq]
  rfl

theorem enum_eq_spec (t : STree) (d : Int) (h1 : 1 ≤ d) (h2 : d ≤ 5) :
    enum_at_depth t d = .ok (enum_spec d.toNat t) := by
  interval_cases d <;>
    simp [enum_at_depth, enumD1_eq, enumD2_eq, enumD3_eq, enumD4_eq, enumD5_eq]

theorem enum_pairs_fst_lt (l : List STree) :
    l.enum.Pairwise (fun a b => a.1 < b.1) := by
  have h := List.pairwise_lt_range l.length
  rw [← List.enum_map_fst l, List.pairwise_map] at h
  exact h

theorem enum_spec_fst_pairwise (d : Nat) (t : STree) :
    ((enum_spec d t).map Prod.fst).Pairwise (List.Lex (· < ·)) := by
  induction d generalizing t with
  | zero => simp [enum_spec]
  | succ d ih =>
      rw [enum_spec, List.flatMap, List.map_flatten, List.map_map,
        List.pairwise_flatten]
      constructor
      · intro l hl
        simp only [List.mem_map, Function.comp] at hl
        obtain ⟨p, _, rfl⟩ := hl
        rw [List.map_map, List.pairwise_map]
        have h := ih p.2
        rw [List.pairwise_map] at h
        exact h.imp fun hq => List.Lex.cons hq
      · rw [List.pairwise_map]
        refine (enum_pairs_fst_lt t.children).imp ?_
        intro a b hab x hx y hy
        simp only [Function.comp, List.map_map, List.mem_map] at hx hy
        obtain ⟨q, _, rfl⟩ := hx
        obtain ⟨q', _, rfl⟩ := hy
        exact List.Lex.rel hab

/-- Claim C1, counterexample: on the docstring runs tree (run strings at
depth 5), `join_leaves("", runs, 3)` does not return
`[[[["run1run2", "run3run4"]]]]`; the join at `_depth == 3` hits a list
of lists and raises `TypeError` (modelled `none`). -/
theorem claim_C1_counterexample :
    join_leaves "" runsTree 3 = none ∧
    join_leaves "" runsTree 3 ≠
      some (.list [.list [.list [.list [.str "run1run2", .str "run3run4"]]]]) :=
  ⟨rfl, fun h => Option.noConfusion h⟩

/-- Claim C1, amended: with `to_depth = 4` (the depth of the run lists),
joining the runs tree with separator `""` concatenates each paragraph's
runs and leaves all shallower structure unchanged, returning
`[[[["run1run2", "run3run4"]]]]`. -/
theorem claim_C1_amended :
    join_leaves "" runsTree 4 =
      some (.list [.list [.list [.list [.str "run1run2", .str "run3run4"]]]]) :=
  rfl

/-- Claim C2: for every tree and every integer depth outside 1..5, both
`enum_at_depth` and `iter_at_depth` raise the same `ValueError` whose
message names the valid range, and no items are produced. -/
theorem claim_C2 (d : Int) (t : STree) (h : d < 1 ∨ 5 < d) :
    enum_at_depth t d = .error "depth argument must be 1, 2, 3, 4, or 5" ∧
    iter_at_depth t d = .error "depth argument must be 1, 2, 3, 4, or 5" := by
  have h1 : d ≠ 1 := by omega
  have h2 : d ≠ 2 := by omega
  have h3 : d ≠ 3 := by omega
  have h4 : d ≠ 4 := by omega
  have h5 : d ≠ 5 := by omega
  exact ⟨by simp [enum_at_depth, h1, h2, h3, h4, h5],
    by simp [iter_at_depth, h1, h2, h3, h4, h5]⟩

/-- Witness for C2 at depth 6. -/
theorem claim_C2_witness :
    enum_at_depth fixtureSeq 6 = .error "depth argument must be 1, 2, 3, 4, or 5" ∧
    iter_at_depth fixtureSeq 6 = .error "depth argument must be 1, 2, 3, 4, or 5" :=
  claim_C2 6 fixtureSeq (Or.inr (by norm_num))

/-- Claim C3: `enum_at_depth` agrees with the spec's recursive reference
enumeration at every supported depth; on the docstring fixture at depth 3
it yields exactly the five documented pairs in order; and the addresses it
yields are strictly increasing in lexicographic order. -/
theorem claim_C3 :
    (∀ (t : STree) (d : Int), 1 ≤ d → d ≤ 5 →
        enum_at_depth t d = .ok (enum_spec d.toNat t))
    ∧ enum_at_depth fixtureSeq 3 = .ok
        [ ([0, 0, 0], .list [.str "a", .str "b"]),
          ([0, 0, 1], .list [.str "c"]),
          ([0, 1, 0], .list [.str "d", .str "e"]),
          ([1, 0, 0], .list [.str "f"]),
          ([1, 0, 1], .list [.str "g", .str "h"]) ]
    ∧ (∀ (t : STree) (d : Int), 1 ≤ d → d ≤ 5 →
        ∃ l, enum_at_depth t d = .ok l ∧
          (l.map Prod.fst).Pairwise (List.Lex (· < ·))) :=
  ⟨enum_eq_spec, rfl, fun t d h1 h2 =>
    ⟨enum_spec d.toNat t, enum_eq_spec t d h1 h2, enum_spec_fst_pairwise d.toNat t⟩⟩

/-- Witness for C3 on the fixture at depth 3. -/
theorem claim_C3_witness :
    enum_at_depth fixtureSeq 3 = .ok (enum_spec (3 : Int).toNat fixtureSeq) ∧
    (∃ l, enum_at_depth fixtureSeq 3 = .ok l ∧
      (l.map Prod.fst).Pairwise (List.Lex (· < ·))) :=
  ⟨claim_C3.1 fixtureSeq 3 (by norm_num) (by norm_num),
    claim_C3.2.2 fixtureSeq 3 (by norm_num) (by norm_num)⟩

/-- Claim C4: at every supported depth, `iter_at_depth` is exactly the
item projection of `enum_at_depth` (same items, same order, same length;
and, both being the same `Except` value, the same error behavior). -/
theorem claim_C4 (t : STree) (d : Int) (h1 : 1 ≤ d) (h2 : d ≤ 5) :
    iter_at_depth t d = (enum_at_depth t d).map (List.map Prod.snd) := by
  interval_cases d <;> rfl

/-- Witness for C4 on the fixture at depth 3. -/
theorem claim_C4_witness :
    iter_at_depth fixtureSeq 3 =
      (enum_at_depth fixtureSeq 3).map (List.map Prod.snd) :=
  claim_C4 fixtureSeq 3 (by norm_num) (by norm_num)

/-- Claim C9: each named wrapper produces exactly the value of the
corresponding `iter_at_depth`/`enum_at_depth` call at its fixed depth. -/
theorem claim_C9 (t : STree) :
    iter_tables t = iter_at_depth t 1 ∧
    iter_rows t = iter_at_depth t 2 ∧
    iter_cells t = iter_at_depth t 3 ∧
    iter_paragraphs t = iter_at_depth t 4 ∧
    enum_tables t = enum_at_depth t 1 ∧
    enum_rows t = enum_at_depth t 2 ∧
    enum_cells t = enum_at_depth t 3 ∧
    enum_paragraphs t = enum_at_depth t 4 :=
  ⟨rfl, rfl, rfl, rfl, rfl, rfl, rfl, rfl⟩

/-- Claim C10: on the empty top-level sequence, both traversals succeed
with the empty result at every supported depth, raising no error. -/
theorem claim_C10 :
    enum_at_depth (.list []) 1 = .ok [] ∧
    enum_at_depth (.list []) 2 = .ok [] ∧
    enum_at_depth (.list []) 3 = .ok [] ∧
    enum_at_depth (.list []) 4 = .ok [] ∧
    enum_at_depth (.list []) 5 = .ok [] ∧
    iter_at_depth (.list []) 1 = .ok [] ∧
    iter_at_depth (.list []) 2 = .ok [] ∧
    iter_at_depth (.list []) 3 = .ok [] ∧
    iter_at_depth (.list []) 4 = .ok [] ∧
    iter_at_depth (.list []) 5 = .ok [] :=
  ⟨rfl, rfl, rfl, rfl, rfl, rfl, rfl, rfl, rfl, rfl⟩

/-- Claim C8: joining a node with zero children at the target depth gives
the empty string (no error), and in general the joined value carries the
separator only between adjacent leaves: joining `s :: ss` yields `s`
followed by each further leaf preceded by one separator — no leading or
trailing separator. -/
theorem claim_C8 (joint : String) (d : Nat) (s : String) (ss : List String) :
    join_leaves joint (.list []) d d = some (.str "") ∧
    join_leaves joint (.list ((s :: ss).map .str)) d d =
      some (.str (s ++ (ss.map (joint ++ ·)).foldr (· ++ ·) "")) := by
  constructor
  · simp [join_leaves, joinLeavesGo, getStrs, pyJoin]
  · have hg := getStrs_map_str (s :: ss)
    simp only [List.map_cons] at hg
    simp [join_leaves, joinLeavesGo]
    exact ⟨s :: ss, hg, pyJoin_cons joint s ss⟩

theorem getD_append_cons {α : Type} (pre : List α) (x : α) (rest : List α) (d : α) :
    (pre ++ x :: rest).getD pre.length d = x := by
  induction pre with
  | nil => rfl
  | cons a pre ih => simpa using ih

theorem set_append_cons {α : Type} (pre : List α) (x y : α) (rest : List α) :
    (pre ++ x :: rest).set pre.length y = pre ++ y :: rest := by
  induction pre with
  | nil => rfl
  | cons a pre ih => simp [List.set, ih]

theorem groupFold (E : List (List Nat × STree)) :
    ∀ (pre rest : List STree) (x : STree) (v : List Nat × STree → STree),
    (E.map fun q => ((pre.length :: q.1 : List Nat), q.2)).foldl
        (fun w p => setAt w p.1 (v p)) (.list (pre ++ x :: rest))
      = .list (pre ++
          (E.foldl (fun y q => setAt y q.1 (v (pre.length :: q.1, q.2))) x) :: rest) := by
  induction E with
  | nil => intros; rfl
  | cons q E ih =>
      intro pre rest x v
      simp only [List.map_cons, List.foldl_cons]
      have hstep : setAt (.list (pre ++ x :: rest)) (pre.length :: q.1)
          (v (pre.length :: q.1, q.2))
          = .list (pre ++ (setAt x q.1 (v (pre.length :: q.1, q.2))) :: rest) := by
        show STree.list ((pre ++ x :: rest).set pre.length
            (setAt ((pre ++ x :: rest).getD pre.length (.list [])) q.1
              (v (pre.length :: q.1, q.2)))) = _
        rw [getD_append_cons, set_append_cons]
      rw [hstep]
      exact ih pre rest _ v

theorem outerFold (d : Nat)
    (IH : ∀ (t : STree) (g : List Nat → STree → STree), wfD d t →
      (enum_spec d t).foldl (fun w p => setAt w p.1 (g p.1 p.2)) t = mapAtD d g t)
    (ts : List STree) :
    ∀ (pre : List STree) (g : List Nat → STree → STree),
    (∀ x ∈ ts, wfD d x) →
    ((ts.enumFrom pre.length).flatMap fun p =>
        (enum_spec d p.2).map fun q => (p.1 :: q.1, q.2)).foldl
      (fun w p => setAt w p.1 (g p.1 p.2)) (.list (pre ++ ts))
    = .list (pre ++ (ts.enumFrom pre.length).map fun p =>
        mapAtD d (fun a y => g (p.1 :: a) y) p.2) := by
  induction ts with
  | nil => intros; simp [List.enumFrom]
  | cons x ts ih =>
      intro pre g hwf
      simp only [List.enumFrom, List.flatMap_cons, List.foldl_append]
      have hgrp := groupFold (enum_spec d x) pre ts x (fun p => g p.1 p.2)
      rw [hgrp]
      have hinner : (enum_spec d x).foldl
          (fun y q => setAt y q.1 (g (pre.length :: q.1) q.2)) x
          = mapAtD d (fun a y => g (pre.length :: a) y) x :=
        IH x (fun a y => g (pre.length :: a) y) (hwf x (by simp))
      rw [hinner]
      have := ih (pre ++ [mapAtD d (fun a y => g (pre.length :: a) y) x]) g
        (fun y hy => hwf y (by simp [hy]))
      simp only [List.length_append, List.length_cons, List.length_nil,
        List.append_assoc, List.singleton_append] at this
      simpa using this

theorem foldSet (d : Nat) :
    ∀ (t : STree) (g : List Nat → STree → STree), wfD d t →
    (enum_spec d t).foldl (fun w p => setAt w p.1 (g p.1 p.2)) t = mapAtD d g t := by
  induction d with
  | zero => intro t g _; cases t <;> rfl
  | succ d ih =>
      intro t g hwf
      match t with
      | .str s => exact absurd hwf (by simp [wfD])
      | .list ts =>
          have h0 := outerFold d ih ts [] g (by simpa [wfD] using hwf)
          simpa [enum_spec, mapAtD, STree.children, List.enum] using h0

theorem wf_toSTree (t : TextTable) : wfD 4 (toSTree t) := by
  simp [toSTree, tableToS, rowToS, cellToS, runsToS, wfD]

theorem wf_embed4 (z : List (List (List (List String)))) : wfD 3 (embed4 z) := by
  simp [embed4, wfD]

theorem wf_embed3 (y : List (List (List String))) : wfD 2 (embed3 y) := by
  simp [embed3, wfD]

theorem wf_embed2 (w : List (List String)) : wfD 1 (embed2 w) := by
  simp [embed2, wfD]

theorem mapAtD_succ_map {α : Type} (d : Nat) (g : List Nat → STree → STree)
    (l : List α) (f : α → STree) :
    mapAtD (d + 1) g (.list (l.map f))
      = .list (l.enum.map fun p => mapAtD d (fun a y => g (p.1 :: a) y) (f p.2)) := by
  simp [mapAtD, List.enum_map, List.map_map, Function.comp, Prod.map]

theorem enum_map_snd_fn {α β : Type} (l : List α) (h : α → β) :
    l.enum.map (fun p => h p.2) = l.map h := by
  have : (fun p : Nat × α => h p.2) = h ∘ Prod.snd := rfl
  rw [this, ← List.map_map, List.enum_map_snd]

theorem strOf_str (s : String) : strOf (.str s) = s := rfl

theorem mapAtD_noaddr_map {α : Type} (d : Nat) (G : STree → STree)
    (l : List α) (f : α → STree) :
    mapAtD (d + 1) (fun _ y => G y) (.list (l.map f))
      = .list (l.map fun x => mapAtD d (fun _ y => G y) (f x)) := by
  rw [mapAtD_succ_map]
  exact congrArg STree.list (enum_map_snd_fn l (fun x => mapAtD d (fun _ y => G y) (f x)))

theorem strOf_comp_str : strOf ∘ STree.str = id := by
  funext s
  rfl

theorem comp_wrap_str (a b : String) :
    ((fun x => a ++ strOf x ++ b) ∘ STree.str) = fun s => a ++ s ++ b := by
  funext s
  rfl

theorem joinRuns_mapStr (p : List String) :
    joinRuns (.list (p.map .str)) = pyJoin "" p := by
  simp [joinRuns, STree.children, List.map_map, strOf_comp_str]

theorem pass1_eq (t : TextTable) :
    mapAtD 4 (fun a y => .str (tupleStr a ++ " " ++ joinRuns y)) (toSTree t)
      = embed4 (stage1 t) := by
  simp only [toSTree, tableToS, rowToS, cellToS, mapAtD_succ_map]
  simp [embed4, stage1, mapAtD, List.enum_map, List.map_map, Function.comp,
    joinRuns_mapStr, runsToS]

theorem pass2_eq (z : List (List (List (List String)))) :
    mapAtD 3 (fun _ y => .str (pyJoin "" (y.children.map fun x => "<pre>" ++ strOf x ++ "</pre>")))
        (embed4 z)
      = embed3 (stage2 z) := by
  simp only [embed4, mapAtD_noaddr_map]
  simp [embed3, stage2, mapAtD, STree.children, List.map_map, comp_wrap_str]

theorem pass3_eq (y : List (List (List String))) :
    mapAtD 2 (fun _ y => .str (pyJoin "" (y.children.map fun x => "<td>" ++ strOf x ++ "</td>")))
        (embed3 y)
      = embed2 (stage3 y) := by
  simp only [embed3, mapAtD_noaddr_map]
  simp [embed2, stage3, mapAtD, STree.children, List.map_map, comp_wrap_str]

theorem pass4_eq (w : List (List String)) :
    mapAtD 1 (fun _ y => .str (pyJoin "" (y.children.map fun x => "<tr>" ++ strOf x ++ "</tr>")))
        (embed2 w)
      = embed1 (stage4 w) := by
  simp only [embed2, mapAtD_noaddr_map]
  simp [embed1, stage4, mapAtD, STree.children, List.map_map, comp_wrap_str]

theorem foldPass1 (t : STree) (h : wfD 4 t) :
    (enum_spec 4 t).foldl
        (fun w p => setAt w p.1 (.str (tupleStr p.1 ++ " " ++ joinRuns p.2))) t
      = mapAtD 4 (fun a y => .str (tupleStr a ++ " " ++ joinRuns y)) t :=
  foldSet 4 t (fun a y => .str (tupleStr a ++ " " ++ joinRuns y)) h

theorem foldPass2 (t : STree) (h : wfD 3 t) :
    (enum_spec 3 t).foldl
        (fun w p => setAt w p.1
          (.str (pyJoin "" (p.2.children.map fun x => "<pre>" ++ strOf x ++ "</pre>")))) t
      = mapAtD 3 (fun _ y =>
          .str (pyJoin "" (y.children.map fun x => "<pre>" ++ strOf x ++ "</pre>"))) t :=
  foldSet 3 t (fun _ y =>
    .str (pyJoin "" (y.children.map fun x => "<pre>" ++ strOf x ++ "</pre>"))) h

theorem foldPass3 (t : STree) (h : wfD 2 t) :
    (enum_spec 2 t).foldl
        (fun w p => setAt w p.1
          (.str (pyJoin "" (p.2.children.map fun x => "<td>" ++ strOf x ++ "</td>")))) t
      = mapAtD 2 (fun _ y =>
          .str (pyJoin "" (y.children.map fun x => "<td>" ++ strOf x ++ "</td>"))) t :=
  foldSet 2 t (fun _ y =>
    .str (pyJoin "" (y.children.map fun x => "<td>" ++ strOf x ++ "</td>"))) h

theorem foldPass4 (t : STree) (h : wfD 1 t) :
    (enum_spec 1 t).foldl
        (fun w p => setAt w p.1
          (.str (pyJoin "" (p.2.children.map fun x => "<tr>" ++ strOf x ++ "</tr>")))) t
      = mapAtD 1 (fun _ y =>
          .str (pyJoin "" (y.children.map fun x => "<tr>" ++ strOf x ++ "</tr>"))) t :=
  foldSet 1 t (fun _ y =>
    .str (pyJoin "" (y.children.map fun x => "<tr>" ++ strOf x ++ "</tr>"))) h

theorem get_html_map_toSTree (t : TextTable) :
    get_html_map (toSTree t) = htmlModel t := by
  dsimp only [get_html_map, get_html_map_go]
  rw [show okList (enum_at_depth (toSTree t) 4) = enumD4 (toSTree t) from rfl,
    enumD4_eq, foldPass1 _ (wf_toSTree t), pass1_eq]
  rw [show okList (enum_at_depth (embed4 (stage1 t)) 3) = enumD3 (embed4 (stage1 t)) from rfl,
    enumD3_eq, foldPass2 _ (wf_embed4 _), pass2_eq]
  rw [show okList (enum_at_depth (embed3 (stage2 (stage1 t))) 2)
      = enumD2 (embed3 (stage2 (stage1 t))) from rfl,
    enumD2_eq, foldPass3 _ (wf_embed3 _), pass3_eq]
  rw [show okList (enum_at_depth (embed2 (stage3 (stage2 (stage1 t)))) 1)
      = enumD1 (embed2 (stage3 (stage2 (stage1 t)))) from rfl,
    enumD1_eq, foldPass4 _ (wf_embed2 _), pass4_eq]
  simp [htmlModel, embed1, STree.children, List.map_map, comp_wrap_str]

theorem pfx_cons_cons (a b : Char) (as bs : List Char) :
    (a :: as).isPrefixOf (b :: bs) = (a == b && as.isPrefixOf bs) := rfl

theorem pfx_append_of (n t b : List Char) (h : n.isPrefixOf t = true) :
    n.isPrefixOf (t ++ b) = true := by
  induction n generalizing t with
  | nil => simp [List.isPrefixOf]
  | cons c n ih =>
      cases t with
      | nil => simp [List.isPrefixOf] at h
      | cons d t' =>
          rw [List.cons_append, pfx_cons_cons]
          rw [pfx_cons_cons] at h
          simp only [Bool.and_eq_true] at h ⊢
          exact ⟨h.1, ih t' h.2⟩

theorem pfx_of_append (n t b : List Char) (hlen : n.length ≤ t.length)
    (h : n.isPrefixOf (t ++ b) = true) : n.isPrefixOf t = true := by
  induction n generalizing t with
  | nil => simp [List.isPrefixOf]
  | cons c n ih =>
      cases t with
      | nil => simp at hlen
      | cons d t' =>
          rw [List.cons_append, pfx_cons_cons] at h
          rw [pfx_cons_cons]
          simp only [Bool.and_eq_true] at h ⊢
          exact ⟨h.1, ih t' (by simpa using hlen) h.2⟩

theorem pfx_length (n t : List Char) (h : n.isPrefixOf t = true) :
    n.length ≤ t.length := by
  induction n generalizing t with
  | nil => simp
  | cons c n ih =>
      cases t with
      | nil => simp [List.isPrefixOf] at h
      | cons d t' =>
          rw [pfx_cons_cons] at h
          simp only [Bool.and_eq_true] at h
          simpa using ih t' h.2

theorem pfx_exchange (u n b : List Char) (h : n.isPrefixOf (u ++ b) = true)
    (hlen : u.length ≤ n.length) : u.isPrefixOf n = true := by
  induction u generalizing n with
  | nil => simp [List.isPrefixOf]
  | cons c u' ih =>
      cases n with
      | nil => simp at hlen
      | cons d n' =>
          rw [List.cons_append, pfx_cons_cons] at h
          rw [pfx_cons_cons]
          simp only [Bool.and_eq_true, beq_iff_eq] at h ⊢
          exact ⟨h.1.symm, ih n' h.2 (by simpa using hlen)⟩

theorem cnt_clean_zero (n' a : List Char) (h : ∀ c ∈ a, c ≠ '<') :
    cnt ('<' :: n') a = 0 := by
  induction a with
  | nil => rfl
  | cons c a' ih =>
      have hc : ('<' : Char) ≠ c := fun e => h c (by simp) e.symm
      simp [cnt, pfx_cons_cons, hc, ih (fun x hx => h x (List.mem_cons_of_mem _ hx))]

theorem Spl_nil (n : List Char) : Spl n [] := fun b => by simp [cnt]

theorem Spl_append (n a b : List Char) (ha : Spl n a) (hb : Spl n b) :
    Spl n (a ++ b) := by
  intro r
  rw [List.append_assoc, ha, hb, ha, Nat.add_assoc]

theorem Spl_clean (n' a : List Char) (h : ∀ c ∈ a, c ≠ '<') :
    Spl ('<' :: n') a := by
  intro b
  induction a with
  | nil => simp [cnt]
  | cons c a' ih =>
      have hc : ('<' : Char) ≠ c := fun e => h c (by simp) e.symm
      have ih' := ih (fun x hx => h x (List.mem_cons_of_mem _ hx))
      simp [cnt, pfx_cons_cons, hc, ih']

theorem bool_eq_of_iff {x y : Bool} (h : x = true ↔ y = true) : x = y := by
  cases x <;> cases y <;> simp_all

theorem Spl_tag (n' u' : List Char) (hu : ∀ c ∈ u', c ≠ '<')
    (hnp : ¬(('<' :: u').isPrefixOf ('<' :: n') = true ∧ u'.length < n'.length)) :
    Spl ('<' :: n') ('<' :: u') := by
  intro b
  have hsplit := Spl_clean n' u' hu b
  have hif : (('<' :: n').isPrefixOf (('<' :: u') ++ b))
      = (('<' :: n').isPrefixOf ('<' :: u')) := by
    by_cases hle : n'.length ≤ u'.length
    · apply bool_eq_of_iff
      constructor
      · intro hx
        exact pfx_of_append _ _ _ (by simpa using hle) hx
      · intro hy
        exact pfx_append_of _ _ _ hy
    · have h1 : (('<' :: n').isPrefixOf ('<' :: u')) = false := by
        cases hx : (('<' :: n').isPrefixOf ('<' :: u')) with
        | false => rfl
        | true =>
            have := pfx_length _ _ hx
            simp at this
            omega
      have h2 : (('<' :: n').isPrefixOf (('<' :: u') ++ b)) = false := by
        cases hx : (('<' :: n').isPrefixOf (('<' :: u') ++ b)) with
        | false => rfl
        | true =>
            have hex := pfx_exchange ('<' :: u') ('<' :: n') b hx (by simp; omega)
            exact absurd ⟨hex, by omega⟩ hnp
      rw [h1, h2]
  show cnt ('<' :: n') (('<' :: u') ++ b) = _
  rw [show ('<' :: u') ++ b = '<' :: (u' ++ b) from rfl]
  simp only [cnt]
  rw [hsplit]
  have : (if (('<' :: n').isPrefixOf ('<' :: (u' ++ b))) then 1 else 0)
      = (if (('<' :: n').isPrefixOf ('<' :: u')) then 1 else 0) := by
    rw [show ('<' :: (u' ++ b)) = ('<' :: u') ++ b from rfl, hif]
  rw [this]
  omega

theorem Spl_safe (n' u : List Char) (h : SafePiece ('<' :: n') u) :
    Spl ('<' :: n') u := by
  rcases h with hclean | ⟨hhead, htail, hnp⟩
  · exact Spl_clean n' u hclean
  · cases u with
    | nil => simp at hhead
    | cons c u' =>
        simp at hhead
        subst hhead
        exact Spl_tag n' u' (by simpa using htail) (by simpa using hnp)

theorem wrapCat_cons (o c s : List Char) (items : List (List Char)) :
    wrapCat o c (s :: items) = (o ++ s ++ c) ++ wrapCat o c items := rfl

theorem Spl_wrapCat (n o c : List Char) (ho : Spl n o) (hc : Spl n c)
    (items : List (List Char)) (hitems : ∀ s ∈ items, Spl n s) :
    Spl n (wrapCat o c items) := by
  induction items with
  | nil => exact Spl_nil n
  | cons s r ih =>
      rw [wrapCat_cons]
      exact Spl_append n _ _
        (Spl_append n _ _ (Spl_append n _ _ ho (hitems s (by simp))) hc)
        (ih fun x hx => hitems x (List.mem_cons_of_mem _ hx))

theorem cnt_wrapCat (n o c : List Char) (ho : Spl n o) (hc : Spl n c)
    (items : List (List Char)) (hitems : ∀ s ∈ items, Spl n s) :
    cnt n (wrapCat o c items)
      = items.length * (cnt n o + cnt n c) + (items.map (cnt n)).sum := by
  induction items with
  | nil => simp [wrapCat, cnt]
  | cons s r ih =>
      rw [wrapCat_cons]
      have hs := hitems s (by simp)
      have hr := fun x hx => hitems x (List.mem_cons_of_mem _ hx)
      rw [List.append_assoc, List.append_assoc, ho, hs, hc, ih hr]
      simp [Nat.succ_mul]
      ring

theorem digitChar_ne_lt (m : Nat) : Nat.digitChar m ≠ '<' := by
  by_cases h : m < 16
  · interval_cases m <;> decide
  · simp only [Nat.digitChar]
    repeat rw [if_neg (by omega)]
    decide

theorem toDigitsCore_clean (b : Nat) (f : Nat) :
    ∀ (m : Nat) (acc : List Char), (∀ c ∈ acc, c ≠ '<') →
    ∀ c ∈ Nat.toDigitsCore b f m acc, c ≠ '<' := by
  induction f with
  | zero => intro m acc hacc; simpa [Nat.toDigitsCore] using hacc
  | succ f ih =>
      intro m acc hacc c hc
      rw [Nat.toDigitsCore] at hc
      by_cases hz : m / b = 0
      · simp only [hz, if_pos rfl] at hc
        rcases List.mem_cons.mp hc with h | h
        · subst h; exact digitChar_ne_lt _
        · exact hacc c h
      · simp only [if_neg hz] at hc
        refine ih (m / b) (Nat.digitChar (m % b) :: acc) ?_ c hc
        intro x hx
        rcases List.mem_cons.mp hx with h | h
        · subst h; exact digitChar_ne_lt _
        · exact hacc x h

theorem repr_clean (m : Nat) : ∀ c ∈ (Nat.repr m).data, c ≠ '<' := by
  intro c hc
  have : (Nat.repr m).data = Nat.toDigits 10 m := rfl
  rw [this] at hc
  exact toDigitsCore_clean 10 (m + 1) m [] (by simp) c hc

theorem Clean_append (a b : String) (ha : Clean a) (hb : Clean b) :
    Clean (a ++ b) := by
  intro c hc
  rw [String.data_append] at hc
  rcases List.mem_append.mp hc with h | h
  · exact ha c h
  · exact hb c h

theorem Clean_pyJoin (j : String) (l : List String) (hj : Clean j)
    (hl : ∀ s ∈ l, Clean s) : Clean (pyJoin j l) := by
  induction l with
  | nil => intro c hc; simp [pyJoin] at hc
  | cons s r ih =>
      cases r with
      | nil => exact hl s (by simp)
      | cons s' r' =>
          rw [show pyJoin j (s :: s' :: r') = s ++ j ++ pyJoin j (s' :: r') from rfl]
          exact Clean_append _ _
            (Clean_append _ _ (hl s (by simp)) hj)
            (ih fun x hx => hl x (List.mem_cons_of_mem _ hx))

theorem Clean_repr (m : Nat) : Clean (Nat.repr m) := repr_clean m

theorem Clean_tupleStr (a : List Nat) : Clean (tupleStr a) := by
  refine Clean_append _ _ (Clean_append _ _ ?_ ?_) ?_
  · intro c hc; simp at hc; subst hc; decide
  · refine Clean_pyJoin _ _ ?_ ?_
    · intro c hc
      rw [show (", " : String).data = [',', ' '] from rfl] at hc
      rcases List.mem_cons.mp hc with h | h
      · subst h; decide
      · rcases List.mem_cons.mp h with h2 | h2
        · subst h2; decide
        · cases h2
    · intro s hs
      rcases List.mem_map.mp hs with ⟨m, _, rfl⟩
      exact Clean_repr m
  · intro c hc; simp at hc; subst hc; decide

theorem pyJoin_empty_data (l : List String) :
    (pyJoin "" l).data = (l.map String.data).foldr (· ++ ·) [] := by
  induction l with
  | nil => rfl
  | cons s r ih =>
      cases r with
      | nil => simp [pyJoin]
      | cons s' r' =>
          rw [show pyJoin "" (s :: s' :: r') = s ++ "" ++ pyJoin "" (s' :: r') from rfl]
          simp only [String.data_append, ih]
          simp

theorem wrap_data (o c : String) (l : List String) :
    (pyJoin "" (l.map fun x => o ++ x ++ c)).data
      = wrapCat o.data c.data (l.map String.data) := by
  rw [pyJoin_empty_data, wrapCat, List.map_map, List.map_map]
  have hfn : (String.data ∘ fun x => o ++ x ++ c)
      = (fun s => o.data ++ s ++ c.data) ∘ String.data := by
    funext x
    simp [Function.comp, String.data_append]
  rw [hfn]

theorem rowFuse (r : List (List String)) :
    pyJoin "" (List.map (fun x => "<td>" ++ x ++ "</td>")
      (List.map (fun c => pyJoin "" (List.map (fun x => "<pre>" ++ x ++ "</pre>") c)) r))
      = rowStr r := by
  rw [List.map_map]
  rfl

theorem tableFuse (tb : List (List (List String))) :
    pyJoin "" (List.map (fun x => "<tr>" ++ x ++ "</tr>")
      (List.map (fun r => pyJoin "" (List.map (fun x => "<td>" ++ x ++ "</td>") r))
        (List.map (fun r =>
          List.map (fun c => pyJoin "" (List.map (fun x => "<pre>" ++ x ++ "</pre>") c)) r) tb)))
      = tableStr tb := by
  rw [List.map_map, List.map_map]
  apply congrArg
  apply List.map_congr_left
  intro r _
  simp only [Function.comp]
  rw [rowFuse]

theorem htmlModel_eq_docStr (t : TextTable) : htmlModel t = docStr (stage1 t) := by
  unfold htmlModel docStr stage2 stage3 stage4
  rw [List.map_map, List.map_map, List.map_map]
  apply congrArg₂ (fun a b => a ++ b)
  · apply congrArg₂ (fun a b => a ++ b) rfl
    apply congrArg
    apply List.map_congr_left
    intro tb _
    simp only [Function.comp]
    rw [tableFuse]
  · rfl

theorem sumMulRight {α : Type} (l : List α) (f : α → Nat) (k : Nat) :
    (l.map fun x => f x * k).sum = (l.map f).sum * k := by
  induction l with
  | nil => simp
  | cons x r ih => simp [ih, Nat.add_mul]

theorem cell_cnt (n' : List Char)
    (hPO : SafePiece ('<' :: n') "<pre>".data)
    (hPC : SafePiece ('<' :: n') "</pre>".data)
    (c : List String) (hc : ∀ s ∈ c, Clean s) :
    Spl ('<' :: n') (cellStr c).data ∧
    cnt ('<' :: n') (cellStr c).data
      = c.length * (cnt ('<' :: n') "<pre>".data + cnt ('<' :: n') "</pre>".data) := by
  have hdata : (cellStr c).data
      = wrapCat "<pre>".data "</pre>".data (c.map String.data) := wrap_data _ _ c
  have hitems : ∀ s ∈ c.map String.data, Spl ('<' :: n') s := by
    intro s hs
    rcases List.mem_map.mp hs with ⟨x, hx, rfl⟩
    exact Spl_clean n' _ (hc x hx)
  constructor
  · rw [hdata]
    exact Spl_wrapCat _ _ _ (Spl_safe _ _ hPO) (Spl_safe _ _ hPC) _ hitems
  · rw [hdata, cnt_wrapCat _ _ _ (Spl_safe _ _ hPO) (Spl_safe _ _ hPC) _ hitems]
    have hzero : ((c.map String.data).map (cnt ('<' :: n'))).sum = 0 := by
      apply List.sum_eq_zero
      intro x hx
      rw [List.map_map] at hx
      rcases List.mem_map.mp hx with ⟨y, hy, rfl⟩
      exact cnt_clean_zero n' _ (hc y hy)
    rw [hzero]
    simp

theorem row_cnt (n' : List Char)
    (hDO : SafePiece ('<' :: n') "<td>".data)
    (hDC : SafePiece ('<' :: n') "</td>".data)
    (hPO : SafePiece ('<' :: n') "<pre>".data)
    (hPC : SafePiece ('<' :: n') "</pre>".data)
    (r : List (List String)) (hr : ∀ c ∈ r, ∀ s ∈ c, Clean s) :
    Spl ('<' :: n') (rowStr r).data ∧
    cnt ('<' :: n') (rowStr r).data
      = r.length * (cnt ('<' :: n') "<td>".data + cnt ('<' :: n') "</td>".data)
        + (r.map List.length).sum
          * (cnt ('<' :: n') "<pre>".data + cnt ('<' :: n') "</pre>".data) := by
  have hform : (r.map fun c => "<td>" ++ cellStr c ++ "</td>")
      = (r.map cellStr).map fun x => "<td>" ++ x ++ "</td>" := by
    rw [List.map_map]
    rfl
  have hdata : (rowStr r).data
      = wrapCat "<td>".data "</td>".data ((r.map cellStr).map String.data) := by
    rw [rowStr, hform, wrap_data]
  have hitems : ∀ s ∈ (r.map cellStr).map String.data, Spl ('<' :: n') s := by
    intro s hs
    rw [List.map_map] at hs
    rcases List.mem_map.mp hs with ⟨x, hx, rfl⟩
    exact (cell_cnt n' hPO hPC x (hr x hx)).1
  constructor
  · rw [hdata]
    exact Spl_wrapCat _ _ _ (Spl_safe _ _ hDO) (Spl_safe _ _ hDC) _ hitems
  · rw [hdata, cnt_wrapCat _ _ _ (Spl_safe _ _ hDO) (Spl_safe _ _ hDC) _ hitems]
    have hsum : (((r.map cellStr).map String.data).map (cnt ('<' :: n'))).sum
        = (r.map List.length).sum
          * (cnt ('<' :: n') "<pre>".data + cnt ('<' :: n') "</pre>".data) := by
      rw [List.map_map, List.map_map]
      have hcong : r.map ((cnt ('<' :: n') ∘ String.data) ∘ cellStr)
          = r.map fun c =>
              c.length * (cnt ('<' :: n') "<pre>".data + cnt ('<' :: n') "</pre>".data) := by
        apply List.map_congr_left
        intro c hcm
        simp only [Function.comp]
        exact (cell_cnt n' hPO hPC c (hr c hcm)).2
      rw [hcong, sumMulRight]
    rw [hsum]
    simp

theorem sumAdd {α : Type} (l : List α) (f g : α → Nat) :
    (l.map fun x => f x + g x).sum = (l.map f).sum + (l.map g).sum := by
  induction l with
  | nil => simp
  | cons x r ih => simp [ih]; ring

theorem table_cnt (n' : List Char)
    (hRO : SafePiece ('<' :: n') "<tr>".data)
    (hRC : SafePiece ('<' :: n') "</tr>".data)
    (hDO : SafePiece ('<' :: n') "<td>".data)
    (hDC : SafePiece ('<' :: n') "</td>".data)
    (hPO : SafePiece ('<' :: n') "<pre>".data)
    (hPC : SafePiece ('<' :: n') "</pre>".data)
    (tb : List (List (List String))) (htb : ∀ r ∈ tb, ∀ c ∈ r, ∀ s ∈ c, Clean s) :
    Spl ('<' :: n') (tableStr tb).data ∧
    cnt ('<' :: n') (tableStr tb).data
      = tb.length * (cnt ('<' :: n') "<tr>".data + cnt ('<' :: n') "</tr>".data)
        + (tb.map List.length).sum
          * (cnt ('<' :: n') "<td>".data + cnt ('<' :: n') "</td>".data)
        + (tb.map fun r => (r.map List.length).sum).sum
          * (cnt ('<' :: n') "<pre>".data + cnt ('<' :: n') "</pre>".data) := by
  have hform : (tb.map fun r => "<tr>" ++ rowStr r ++ "</tr>")
      = (tb.map rowStr).map fun x => "<tr>" ++ x ++ "</tr>" := by
    rw [List.map_map]
    rfl
  have hdata : (tableStr tb).data
      = wrapCat "<tr>".data "</tr>".data ((tb.map rowStr).map String.data) := by
    rw [tableStr, hform, wrap_data]
  have hitems : ∀ s ∈ (tb.map rowStr).map String.data, Spl ('<' :: n') s := by
    intro s hs
    rw [List.map_map] at hs
    rcases List.mem_map.mp hs with ⟨x, hx, rfl⟩
    exact (row_cnt n' hDO hDC hPO hPC x (htb x hx)).1
  constructor
  · rw [hdata]
    exact Spl_wrapCat _ _ _ (Spl_safe _ _ hRO) (Spl_safe _ _ hRC) _ hitems
  · rw [hdata, cnt_wrapCat _ _ _ (Spl_safe _ _ hRO) (Spl_safe _ _ hRC) _ hitems]
    have hsum : (((tb.map rowStr).map String.data).map (cnt ('<' :: n'))).sum
        = (tb.map List.length).sum
            * (cnt ('<' :: n') "<td>".data + cnt ('<' :: n') "</td>".data)
          + (tb.map fun r => (r.map List.length).sum).sum
            * (cnt ('<' :: n') "<pre>".data + cnt ('<' :: n') "</pre>".data) := by
      rw [List.map_map, List.map_map]
      have hcong : tb.map ((cnt ('<' :: n') ∘ String.data) ∘ rowStr)
          = tb.map fun r =>
              r.length * (cnt ('<' :: n') "<td>".data + cnt ('<' :: n') "</td>".data)
              + (r.map List.length).sum
                * (cnt ('<' :: n') "<pre>".data + cnt ('<' :: n') "</pre>".data) := by
        apply List.map_congr_left
        intro r hrm
        simp only [Function.comp]
        exact (row_cnt n' hDO hDC hPO hPC r (htb r hrm)).2
      rw [hcong, sumAdd, sumMulRight, sumMulRight]
    rw [hsum]
    simp [List.length_map]
    ring

theorem doc_cnt (n' : List Char)
    (hH1 : SafePiece ('<' :: n') "<html>".data)
    (hH2 : SafePiece ('<' :: n') "<body>".data)
    (hB1 : SafePiece ('<' :: n') "</body>".data)
    (hTO : SafePiece ('<' :: n') "<table border=\"1\">".data)
    (hTC : SafePiece ('<' :: n') "</table>".data)
    (hRO : SafePiece ('<' :: n') "<tr>".data)
    (hRC : SafePiece ('<' :: n') "</tr>".data)
    (hDO : SafePiece ('<' :: n') "<td>".data)
    (hDC : SafePiece ('<' :: n') "</td>".data)
    (hPO : SafePiece ('<' :: n') "<pre>".data)
    (hPC : SafePiece ('<' :: n') "</pre>".data)
    (z : List (List (List (List String))))
    (hz : ∀ tb ∈ z, ∀ r ∈ tb, ∀ c ∈ r, ∀ s ∈ c, Clean s) :
    cnt ('<' :: n') (docStr z).data
      = cnt ('<' :: n') "<html>".data + cnt ('<' :: n') "<body>".data
        + cnt ('<' :: n') "</body>".data + cnt ('<' :: n') "</html>".data
        + z.length * (cnt ('<' :: n') "<table border=\"1\">".data
            + cnt ('<' :: n') "</table>".data)
        + (z.map List.length).sum
            * (cnt ('<' :: n') "<tr>".data + cnt ('<' :: n') "</tr>".data)
        + (z.map fun tb => (tb.map List.length).sum).sum
            * (cnt ('<' :: n') "<td>".data + cnt ('<' :: n') "</td>".data)
        + (z.map fun tb => (tb.map fun r => (r.map List.length).sum).sum).sum
            * (cnt ('<' :: n') "<pre>".data + cnt ('<' :: n') "</pre>".data) := by
  have hitems : ∀ s ∈ (z.map tableStr).map String.data, Spl ('<' :: n') s := by
    intro s hs
    rw [List.map_map] at hs
    rcases List.mem_map.mp hs with ⟨x, hx, rfl⟩
    exact (table_cnt n' hRO hRC hDO hDC hPO hPC x (hz x hx)).1
  have hform : (z.map fun tb => "<table border=\"1\">" ++ tableStr tb ++ "</table>")
      = (z.map tableStr).map fun x => "<table border=\"1\">" ++ x ++ "</table>" := by
    rw [List.map_map]
    rfl
  have hdata : (docStr z).data
      = "<html>".data ++ ("<body>".data ++
          (wrapCat "<table border=\"1\">".data "</table>".data
              ((z.map tableStr).map String.data)
            ++ ("</body>".data ++ "</html>".data))) := by
    rw [docStr, hform]
    rw [String.data_append, String.data_append, wrap_data]
    rw [show ("<html><body>" : String).data = "<html>".data ++ "<body>".data from rfl]
    rw [show ("</body></html>" : String).data = "</body>".data ++ "</html>".data from rfl]
    simp [List.append_assoc]
  rw [hdata]
  rw [Spl_safe _ _ hH1 _, Spl_safe _ _ hH2 _,
    Spl_wrapCat _ _ _ (Spl_safe _ _ hTO) (Spl_safe _ _ hTC) _ hitems _,
    Spl_safe _ _ hB1 _]
  rw [cnt_wrapCat _ _ _ (Spl_safe _ _ hTO) (Spl_safe _ _ hTC) _ hitems]
  have hsum : (((z.map tableStr).map String.data).map (cnt ('<' :: n'))).sum
      = (z.map List.length).sum
          * (cnt ('<' :: n') "<tr>".data + cnt ('<' :: n') "</tr>".data)
        + (z.map fun tb => (tb.map List.length).sum).sum
          * (cnt ('<' :: n') "<td>".data + cnt ('<' :: n') "</td>".data)
        + (z.map fun tb => (tb.map fun r => (r.map List.length).sum).sum).sum
          * (cnt ('<' :: n') "<pre>".data + cnt ('<' :: n') "</pre>".data) := by
    rw [List.map_map, List.map_map]
    have hcong : z.map ((cnt ('<' :: n') ∘ String.data) ∘ tableStr)
        = z.map fun tb =>
            (tb.length * (cnt ('<' :: n') "<tr>".data + cnt ('<' :: n') "</tr>".data)
              + (tb.map List.length).sum
                * (cnt ('<' :: n') "<td>".data + cnt ('<' :: n') "</td>".data))
            + (tb.map fun r => (r.map List.length).sum).sum
              * (cnt ('<' :: n') "<pre>".data + cnt ('<' :: n') "</pre>".data) := by
      apply List.map_congr_left
      intro tb htbm
      simp only [Function.comp]
      exact (table_cnt n' hRO hRC hDO hDC hPO hPC tb (hz tb htbm)).2
    rw [hcong, sumAdd, sumAdd, sumMulRight, sumMulRight, sumMulRight]
  rw [hsum]
  simp [List.length_map]
  ring

theorem mem_enum_snd {α : Type} {p : Nat × α} {l : List α} (h : p ∈ l.enum) :
    p.2 ∈ l := by
  have := List.mem_map_of_mem Prod.snd h
  rwa [List.enum_map_snd] at this

theorem enum_map_len2 {β : Type} (l : List (List β)) :
    (l.enum.map fun q => q.2.length) = l.map List.length :=
  enum_map_snd_fn l List.length

theorem enum_map_sumlen {β : Type} (l : List (List (List β))) :
    (l.enum.map fun q => (q.2.map List.length).sum)
      = l.map fun tb => (tb.map List.length).sum :=
  enum_map_snd_fn l fun tb => (tb.map List.length).sum

theorem enum_map_sumsumlen {β : Type} (l : List (List (List (List β)))) :
    (l.enum.map fun q => (q.2.map fun r => (r.map List.length).sum).sum)
      = l.map fun tb => (tb.map fun r => (r.map List.length).sum).sum :=
  enum_map_snd_fn l fun tb => (tb.map fun r => (r.map List.length).sum).sum

theorem stage1_len (t : TextTable) : (stage1 t).length = t.length := by
  simp [stage1, List.enum_length]

theorem stage1_rows (t : TextTable) :
    (stage1 t).map List.length = t.map List.length := by
  simp only [stage1, List.map_map, Function.comp_def, List.length_map, List.enum_length]
  exact enum_map_len2 t

theorem stage1_cells (t : TextTable) :
    ((stage1 t).map fun tb => (tb.map List.length).sum)
      = t.map fun tb => (tb.map List.length).sum := by
  simp only [stage1, List.map_map, Function.comp_def, List.length_map, List.enum_length,
    enum_map_len2]
  exact enum_map_sumlen t

theorem stage1_pars (t : TextTable) :
    ((stage1 t).map fun tb => (tb.map fun r => (r.map List.length).sum).sum)
      = t.map fun tb => (tb.map fun r => (r.map List.length).sum).sum := by
  simp only [stage1, List.map_map, Function.comp_def, List.length_map, List.enum_length,
    enum_map_len2, enum_map_sumlen]
  exact enum_map_sumsumlen t

theorem stage1_clean (t : TextTable) (h : RunsClean t) :
    ∀ tb ∈ stage1 t, ∀ r ∈ tb, ∀ c ∈ r, ∀ s ∈ c, Clean s := by
  intro tb htb r hr c hc s hs
  rw [stage1] at htb
  rcases List.mem_map.mp htb with ⟨q1, hq1, rfl⟩
  rcases List.mem_map.mp hr with ⟨q2, hq2, rfl⟩
  rcases List.mem_map.mp hc with ⟨q3, hq3, rfl⟩
  rcases List.mem_map.mp hs with ⟨q4, hq4, rfl⟩
  have hruns := h q1.2 (mem_enum_snd hq1) q2.2 (mem_enum_snd hq2)
    q3.2 (mem_enum_snd hq3) q4.2 (mem_enum_snd hq4)
  refine Clean_append _ _ (Clean_append _ _ (Clean_tupleStr _) ?_) ?_
  · intro ch hch
    rw [show (" " : String).data = [' '] from rfl] at hch
    rcases List.mem_cons.mp hch with h2 | h2
    · subst h2; decide
    · cases h2
  · refine Clean_pyJoin _ _ ?_ ?_
    · intro ch hch
      cases hch
    · intro x hx
      exact fun ch hch e => hruns x hx (e ▸ hch)

theorem count_tr (t : TextTable) (hclean : RunsClean t) :
    countSubstr "<tr>" (htmlModel t) = nRows t := by
  rw [htmlModel_eq_docStr]
  unfold countSubstr
  rw [show ("<tr>" : String).data = '<' :: ['t', 'r', '>'] from rfl]
  rw [doc_cnt ['t', 'r', '>'] (by unfold SafePiece; decide) (by unfold SafePiece; decide)
    (by unfold SafePiece; decide) (by unfold SafePiece; decide) (by unfold SafePiece; decide)
    (by unfold SafePiece; decide) (by unfold SafePiece; decide) (by unfold SafePiece; decide)
    (by unfold SafePiece; decide) (by unfold SafePiece; decide) (by unfold SafePiece; decide)
    (stage1 t) (stage1_clean t hclean)]
  rw [stage1_len, stage1_rows, stage1_cells, stage1_pars]
  rw [show cnt ('<' :: ['t', 'r', '>']) "<html>".data = 0 from rfl,
    show cnt ('<' :: ['t', 'r', '>']) "<body>".data = 0 from rfl,
    show cnt ('<' :: ['t', 'r', '>']) "</body>".data = 0 from rfl,
    show cnt ('<' :: ['t', 'r', '>']) "</html>".data = 0 from rfl,
    show cnt ('<' :: ['t', 'r', '>']) "<table border=\"1\">".data = 0 from rfl,
    show cnt ('<' :: ['t', 'r', '>']) "</table>".data = 0 from rfl,
    show cnt ('<' :: ['t', 'r', '>']) "<tr>".data = 1 from rfl,
    show cnt ('<' :: ['t', 'r', '>']) "</tr>".data = 0 from rfl,
    show cnt ('<' :: ['t', 'r', '>']) "<td>".data = 0 from rfl,
    show cnt ('<' :: ['t', 'r', '>']) "</td>".data = 0 from rfl,
    show cnt ('<' :: ['t', 'r', '>']) "<pre>".data = 0 from rfl,
    show cnt ('<' :: ['t', 'r', '>']) "</pre>".data = 0 from rfl]
  simp [nRows]

theorem count_table (t : TextTable) (hclean : RunsClean t) :
    countSubstr "<table" (htmlModel t) = nTables t := by
  rw [htmlModel_eq_docStr]
  unfold countSubstr
  rw [show ("<table" : String).data = '<' :: ['t', 'a', 'b', 'l', 'e'] from rfl]
  rw [doc_cnt ['t', 'a', 'b', 'l', 'e'] (by unfold SafePiece; decide) (by unfold SafePiece; decide)
    (by unfold SafePiece; decide) (by unfold SafePiece; decide) (by unfold SafePiece; decide)
    (by unfold SafePiece; decide) (by unfold SafePiece; decide) (by unfold SafePiece; decide)
    (by unfold SafePiece; decide) (by unfold SafePiece; decide) (by unfold SafePiece; decide)
    (stage1 t) (stage1_clean t hclean)]
  rw [stage1_len, stage1_rows, stage1_cells, stage1_pars]
  rw [show cnt ('<' :: ['t', 'a', 'b', 'l', 'e']) "<html>".data = 0 from rfl,
    show cnt ('<' :: ['t', 'a', 'b', 'l', 'e']) "<body>".data = 0 from rfl,
    show cnt ('<' :: ['t', 'a', 'b', 'l', 'e']) "</body>".data = 0 from rfl,
    show cnt ('<' :: ['t', 'a', 'b', 'l', 'e']) "</html>".data = 0 from rfl,
    show cnt ('<' :: ['t', 'a', 'b', 'l', 'e']) "<table border=\"1\">".data = 1 from rfl,
    show cnt ('<' :: ['t', 'a', 'b', 'l', 'e']) "</table>".data = 0 from rfl,
    show cnt ('<' :: ['t', 'a', 'b', 'l', 'e']) "<tr>".data = 0 from rfl,
    show cnt ('<' :: ['t', 'a', 'b', 'l', 'e']) "</tr>".data = 0 from rfl,
    show cnt ('<' :: ['t', 'a', 'b', 'l', 'e']) "<td>".data = 0 from rfl,
    show cnt ('<' :: ['t', 'a', 'b', 'l', 'e']) "</td>".data = 0 from rfl,
    show cnt ('<' :: ['t', 'a', 'b', 'l', 'e']) "<pre>".data = 0 from rfl,
    show cnt ('<' :: ['t', 'a', 'b', 'l', 'e']) "</pre>".data = 0 from rfl]
  simp [nTables]

theorem count_td (t : TextTable) (hclean : RunsClean t) :
    countSubstr "<td>" (htmlModel t) = nCells t := by
  rw [htmlModel_eq_docStr]
  unfold countSubstr
  rw [show ("<td>" : String).data = '<' :: ['t', 'd', '>'] from rfl]
  rw [doc_cnt ['t', 'd', '>'] (by unfold SafePiece; decide) (by unfold SafePiece; decide)
    (by unfold SafePiece; decide) (by unfold SafePiece; decide) (by unfold SafePiece; decide)
    (by unfold SafePiece; decide) (by unfold SafePiece; decide) (by unfold SafePiece; decide)
    (by unfold SafePiece; decide) (by unfold SafePiece; decide) (by unfold SafePiece; decide)
    (stage1 t) (stage1_clean t hclean)]
  rw [stage1_len, stage1_rows, stage1_cells, stage1_pars]
  rw [show cnt ('<' :: ['t', 'd', '>']) "<html>".data = 0 from rfl,
    show cnt ('<' :: ['t', 'd', '>']) "<body>".data = 0 from rfl,
    show cnt ('<' :: ['t', 'd', '>']) "</body>".data = 0 from rfl,
    show cnt ('<' :: ['t', 'd', '>']) "</html>".data = 0 from rfl,
    show cnt ('<' :: ['t', 'd', '>']) "<table border=\"1\">".data = 0 from rfl,
    show cnt ('<' :: ['t', 'd', '>']) "</table>".data = 0 from rfl,
    show cnt ('<' :: ['t', 'd', '>']) "<tr>".data = 0 from rfl,
    show cnt ('<' :: ['t', 'd', '>']) "</tr>".data = 0 from rfl,
    show cnt ('<' :: ['t', 'd', '>']) "<td>".data = 1 from rfl,
    show cnt ('<' :: ['t', 'd', '>']) "</td>".data = 0 from rfl,
    show cnt ('<' :: ['t', 'd', '>']) "<pre>".data = 0 from rfl,
    show cnt ('<' :: ['t', 'd', '>']) "</pre>".data = 0 from rfl]
  simp [nCells]

theorem count_pre (t : TextTable) (hclean : RunsClean t) :
    countSubstr "<pre>" (htmlModel t) = nPars t := by
  rw [htmlModel_eq_docStr]
  unfold countSubstr
  rw [show ("<pre>" : String).data = '<' :: ['p', 'r', 'e', '>'] from rfl]
  rw [doc_cnt ['p', 'r', 'e', '>'] (by unfold SafePiece; decide) (by unfold SafePiece; decide)
    (by unfold SafePiece; decide) (by unfold SafePiece; decide) (by unfold SafePiece; decide)
    (by unfold SafePiece; decide) (by unfold SafePiece; decide) (by unfold SafePiece; decide)
    (by unfold SafePiece; decide) (by unfold SafePiece; decide) (by unfold SafePiece; decide)
    (stage1 t) (stage1_clean t hclean)]
  rw [stage1_len, stage1_rows, stage1_cells, stage1_pars]
  rw [show cnt ('<' :: ['p', 'r', 'e', '>']) "<html>".data = 0 from rfl,
    show cnt ('<' :: ['p', 'r', 'e', '>']) "<body>".data = 0 from rfl,
    show cnt ('<' :: ['p', 'r', 'e', '>']) "</body>".data = 0 from rfl,
    show cnt ('<' :: ['p', 'r', 'e', '>']) "</html>".data = 0 from rfl,
    show cnt ('<' :: ['p', 'r', 'e', '>']) "<table border=\"1\">".data = 0 from rfl,
    show cnt ('<' :: ['p', 'r', 'e', '>']) "</table>".data = 0 from rfl,
    show cnt ('<' :: ['p', 'r', 'e', '>']) "<tr>".data = 0 from rfl,
    show cnt ('<' :: ['p', 'r', 'e', '>']) "</tr>".data = 0 from rfl,
    show cnt ('<' :: ['p', 'r', 'e', '>']) "<td>".data = 0 from rfl,
    show cnt ('<' :: ['p', 'r', 'e', '>']) "</td>".data = 0 from rfl,
    show cnt ('<' :: ['p', 'r', 'e', '>']) "<pre>".data = 1 from rfl,
    show cnt ('<' :: ['p', 'r', 'e', '>']) "</pre>".data = 0 from rfl]
  simp [nPars]

theorem mem_of_some {α : Type} {l : List α} {i : Nat} {a : α}
    (h : l[i]? = some a) : a ∈ l := by
  rcases List.getElem?_eq_some.mp h with ⟨hlt, he⟩
  exact he ▸ List.getElem_mem hlt

theorem getElem?_enum_map {α β : Type} (l : List α) (f : Nat × α → β) (i : Nat) :
    (l.enum.map f)[i]? = (l[i]?).map fun x => f (i, x) := by
  rw [List.getElem?_map, List.getElem?_enum, Option.map_map]
  rfl

theorem pyJoin_empty_cons (x : String) (l : List String) :
    pyJoin "" (x :: l) = x ++ pyJoin "" l := by
  cases l with
  | nil => exact (strAppendEmpty x).symm
  | cons y r =>
      show x ++ "" ++ pyJoin "" (y :: r) = _
      rw [strAppendEmpty]

theorem foldr_append_concat (A : List (List Char)) (r : List Char) :
    A.foldr (· ++ ·) r = A.foldr (· ++ ·) [] ++ r := by
  induction A with
  | nil => simp
  | cons x A ih => simp [ih, List.append_assoc]

theorem pyJoin_empty_append (a b : List String) :
    pyJoin "" (a ++ b) = pyJoin "" a ++ pyJoin "" b := by
  apply String.ext
  rw [String.data_append, pyJoin_empty_data, pyJoin_empty_data, pyJoin_empty_data,
    List.map_append, List.foldr_append, foldr_append_concat]

theorem mem_pyJoin_split (l : List String) (x : String) (hx : x ∈ l) :
    ∃ a b, pyJoin "" l = a ++ x ++ b := by
  obtain ⟨l1, l2, rfl⟩ := List.append_of_mem hx
  refine ⟨pyJoin "" l1, pyJoin "" l2, ?_⟩
  rw [pyJoin_empty_append, pyJoin_empty_cons, String.append_assoc]

theorem contains_lift (l : List String) (o cl x mid a b : String) (hx : x ∈ l)
    (hsplit : x = a ++ mid ++ b) :
    ∃ a2 b2, pyJoin "" (l.map fun y => o ++ y ++ cl) = a2 ++ mid ++ b2 := by
  have hx' : (o ++ x ++ cl) ∈ l.map (fun y => o ++ y ++ cl) :=
    List.mem_map_of_mem _ hx
  obtain ⟨a1, b1, he⟩ := mem_pyJoin_split _ _ hx'
  refine ⟨a1 ++ (o ++ a), b ++ cl ++ b1, ?_⟩
  rw [he, hsplit]
  simp [String.append_assoc]

/-- Claim C7: in the html map, the paragraph at address `(i, j, k, m)`
contributes a `<pre>` element whose content is exactly the parenthesized
comma-space address, one space, and the paragraph's runs joined with no
separator: pass 1 replaces the node with exactly that string, and the
final output contains it wrapped in one `<pre>…</pre>` pair. -/
theorem claim_C7 (t : TextTable) (i j k m : Nat)
    (tb : List (List (List (List String)))) (r : List (List (List String)))
    (ce : List (List String)) (p : List String)
    (htb : t[i]? = some tb) (hr : tb[j]? = some r) (hc : r[k]? = some ce)
    (hp : ce[m]? = some p) :
    (∃ tb' r' c',
      (stage1 t)[i]? = some tb' ∧ tb'[j]? = some r' ∧ r'[k]? = some c' ∧
        c'[m]? = some (tupleStr [i, j, k, m] ++ " " ++ pyJoin "" p)) ∧
    ∃ a b, get_html_map (toSTree t)
      = a ++ ("<pre>" ++ (tupleStr [i, j, k, m] ++ " " ++ pyJoin "" p) ++ "</pre>") ++ b := by
  have hst : (stage1 t)[i]?
      = some (tb.enum.map fun q2 => q2.2.enum.map fun q3 =>
          q3.2.enum.map fun q4 =>
            tupleStr [i, q2.1, q3.1, q4.1] ++ " " ++ pyJoin "" q4.2) := by
    rw [stage1, getElem?_enum_map, htb]
    rfl
  have hsr : (tb.enum.map fun q2 => q2.2.enum.map fun q3 =>
        q3.2.enum.map fun q4 =>
          tupleStr [i, q2.1, q3.1, q4.1] ++ " " ++ pyJoin "" q4.2)[j]?
      = some (r.enum.map fun q3 => q3.2.enum.map fun q4 =>
          tupleStr [i, j, q3.1, q4.1] ++ " " ++ pyJoin "" q4.2) := by
    rw [getElem?_enum_map, hr]
    rfl
  have hsc : (r.enum.map fun q3 => q3.2.enum.map fun q4 =>
        tupleStr [i, j, q3.1, q4.1] ++ " " ++ pyJoin "" q4.2)[k]?
      = some (ce.enum.map fun q4 =>
          tupleStr [i, j, k, q4.1] ++ " " ++ pyJoin "" q4.2) := by
    rw [getElem?_enum_map, hc]
    rfl
  have hsp : (ce.enum.map fun q4 =>
        tupleStr [i, j, k, q4.1] ++ " " ++ pyJoin "" q4.2)[m]?
      = some (tupleStr [i, j, k, m] ++ " " ++ pyJoin "" p) := by
    rw [getElem?_enum_map, hp]
    rfl
  refine ⟨⟨_, _, _, hst, hsr, hsc, hsp⟩, ?_⟩
  have hmem4 : (tupleStr [i, j, k, m] ++ " " ++ pyJoin "" p)
      ∈ (ce.enum.map fun q4 => tupleStr [i, j, k, q4.1] ++ " " ++ pyJoin "" q4.2) :=
    mem_of_some hsp
  obtain ⟨a0, b0, h0⟩ := mem_pyJoin_split
    ((ce.enum.map fun q4 => tupleStr [i, j, k, q4.1] ++ " " ++ pyJoin "" q4.2).map
      fun x => "<pre>" ++ x ++ "</pre>")
    ("<pre>" ++ (tupleStr [i, j, k, m] ++ " " ++ pyJoin "" p) ++ "</pre>")
    (List.mem_map_of_mem _ hmem4)
  have hcell : cellStr (ce.enum.map fun q4 =>
        tupleStr [i, j, k, q4.1] ++ " " ++ pyJoin "" q4.2)
      = a0 ++ ("<pre>" ++ (tupleStr [i, j, k, m] ++ " " ++ pyJoin "" p) ++ "</pre>") ++ b0 :=
    h0
  have hmem3 : (ce.enum.map fun q4 => tupleStr [i, j, k, q4.1] ++ " " ++ pyJoin "" q4.2)
      ∈ (r.enum.map fun q3 => q3.2.enum.map fun q4 =>
          tupleStr [i, j, q3.1, q4.1] ++ " " ++ pyJoin "" q4.2) :=
    mem_of_some hsc
  obtain ⟨a1, b1, h1⟩ := contains_lift
    ((r.enum.map fun q3 => q3.2.enum.map fun q4 =>
        tupleStr [i, j, q3.1, q4.1] ++ " " ++ pyJoin "" q4.2).map cellStr)
    "<td>" "</td>" _ _ a0 b0 (List.mem_map_of_mem _ hmem3) hcell
  have hrow : rowStr (r.enum.map fun q3 => q3.2.enum.map fun q4 =>
        tupleStr [i, j, q3.1, q4.1] ++ " " ++ pyJoin "" q4.2)
      = a1 ++ ("<pre>" ++ (tupleStr [i, j, k, m] ++ " " ++ pyJoin "" p) ++ "</pre>") ++ b1 := by
    rw [rowStr]
    rw [List.map_map] at h1
    exact h1
  have hmem2 : (r.enum.map fun q3 => q3.2.enum.map fun q4 =>
        tupleStr [i, j, q3.1, q4.1] ++ " " ++ pyJoin "" q4.2)
      ∈ (tb.enum.map fun q2 => q2.2.enum.map fun q3 =>
          q3.2.enum.map fun q4 =>
            tupleStr [i, q2.1, q3.1, q4.1] ++ " " ++ pyJoin "" q4.2) :=
    mem_of_some hsr
  obtain ⟨a2, b2, h2⟩ := contains_lift
    ((tb.enum.map fun q2 => q2.2.enum.map fun q3 =>
        q3.2.enum.map fun q4 =>
          tupleStr [i, q2.1, q3.1, q4.1] ++ " " ++ pyJoin "" q4.2).map rowStr)
    "<tr>" "</tr>" _ _ a1 b1 (List.mem_map_of_mem _ hmem2) hrow
  have htable : tableStr (tb.enum.map fun q2 => q2.2.enum.map fun q3 =>
        q3.2.enum.map fun q4 =>
          tupleStr [i, q2.1, q3.1, q4.1] ++ " " ++ pyJoin "" q4.2)
      = a2 ++ ("<pre>" ++ (tupleStr [i, j, k, m] ++ " " ++ pyJoin "" p) ++ "</pre>") ++ b2 := by
    rw [tableStr]
    rw [List.map_map] at h2
    exact h2
  have hmem1 : (tb.enum.map fun q2 => q2.2.enum.map fun q3 =>
        q3.2.enum.map fun q4 =>
          tupleStr [i, q2.1, q3.1, q4.1] ++ " " ++ pyJoin "" q4.2) ∈ stage1 t :=
    mem_of_some hst
  obtain ⟨a3, b3, h3⟩ := contains_lift ((stage1 t).map tableStr)
    "<table border=\"1\">" "</table>" _ _ a2 b2 (List.mem_map_of_mem _ hmem1) htable
  have hdoc : docStr (stage1 t)
      = ("<html><body>" ++ a3)
        ++ ("<pre>" ++ (tupleStr [i, j, k, m] ++ " " ++ pyJoin "" p) ++ "</pre>")
        ++ (b3 ++ "</body></html>") := by
    rw [docStr]
    rw [List.map_map] at h3
    rw [show ((stage1 t).map fun tb0 => "<table border=\"1\">" ++ tableStr tb0 ++ "</table>")
        = (stage1 t).map ((fun x => "<table border=\"1\">" ++ x ++ "</table>") ∘ tableStr)
      from rfl]
    rw [h3]
    simp [String.append_assoc]
  rw [get_html_map_toSTree, htmlModel_eq_docStr, hdoc]
  exact ⟨_, _, rfl⟩

/-- Claim C5: the caller's tree survives `get_html_map` unchanged — in the
state-passing translation `get_html_map_go`, every item assignment of the
four passes targets the deep copy, so the caller's object component is
returned exactly as passed; and the html string is a pure function of the
input value (it equals the staged pure model).  `join_leaves`,
`enum_at_depth` and `iter_at_depth` build new values and are embedded as
pure functions of their input, so they cannot mutate it. -/
theorem claim_C5 (t : TextTable) :
    (get_html_map_go (toSTree t)).2 = toSTree t ∧
    get_html_map (toSTree t) = htmlModel t :=
  ⟨rfl, get_html_map_toSTree t⟩

/-- Claim C6, counterexample: a run string may itself contain markup; with
the single paragraph `"<pre>"` the output contains 2 occurrences of
`<pre>` although the tree has P = 1 paragraphs, so the claimed count
fails as stated. -/
theorem claim_C6_counterexample :
    countSubstr "<pre>" (get_html_map (toSTree [[[[["<pre>"]]]]])) = 2 ∧
    nPars [[[[["<pre>"]]]]] = 1 ∧ (2 : Nat) ≠ 1 :=
  ⟨by decide, by decide, by decide⟩

/-- Claim C6, amended: for every depth-4 tree whose run strings contain no
`<` character, the html map contains exactly N occurrences of `<table`,
R of `<tr>`, C of `<td>` and P of `<pre>`, and it begins with
`<html><body>` and ends with `</body></html>`. -/
theorem claim_C6 (t : TextTable) (hclean : RunsClean t) :
    countSubstr "<table" (get_html_map (toSTree t)) = nTables t ∧
    countSubstr "<tr>" (get_html_map (toSTree t)) = nRows t ∧
    countSubstr "<td>" (get_html_map (toSTree t)) = nCells t ∧
    countSubstr "<pre>" (get_html_map (toSTree t)) = nPars t ∧
    (∃ s, get_html_map (toSTree t) = "<html><body>" ++ s) ∧
    (∃ s, get_html_map (toSTree t) = s ++ "</body></html>") := by
  rw [get_html_map_toSTree]
  have hpre : ∃ s, htmlModel t = "<html><body>" ++ s :=
    ⟨pyJoin "" ((stage4 (stage3 (stage2 (stage1 t)))).map fun x =>
        "<table border=\"1\">" ++ x ++ "</table>") ++ "</body></html>", by
      rw [htmlModel, String.append_assoc]⟩
  have hsuf : ∃ s, htmlModel t = s ++ "</body></html>" :=
    ⟨"<html><body>" ++ pyJoin "" ((stage4 (stage3 (stage2 (stage1 t)))).map fun x =>
        "<table border=\"1\">" ++ x ++ "</table>"), rfl⟩
  exact ⟨count_table t hclean, count_tr t hclean, count_td t hclean, count_pre t hclean,
    hpre, hsuf⟩

/-- Witness for C6 on a two-table fixture with clean runs. -/
theorem claim_C6_witness :
    countSubstr "<table" (get_html_map (toSTree [[[[["te", "xt"]]]], []]))
      = nTables [[[[["te", "xt"]]]], []] ∧
    countSubstr "<tr>" (get_html_map (toSTree [[[[["te", "xt"]]]], []]))
      = nRows [[[[["te", "xt"]]]], []] ∧
    countSubstr "<td>" (get_html_map (toSTree [[[[["te", "xt"]]]], []]))
      = nCells [[[[["te", "xt"]]]], []] ∧
    countSubstr "<pre>" (get_html_map (toSTree [[[[["te", "xt"]]]], []]))
      = nPars [[[[["te", "xt"]]]], []] ∧
    (∃ s, get_html_map (toSTree [[[[["te", "xt"]]]], []]) = "<html><body>" ++ s) ∧
    (∃ s, get_html_map (toSTree [[[[["te", "xt"]]]], []]) = s ++ "</body></html>") :=
  claim_C6 [[[[["te", "xt"]]]], []] (by unfold RunsClean; decide)

/-- Witness for C7 at address `(0, 0, 0, 0)` of a one-paragraph tree. -/
theorem claim_C7_witness :
    (∃ tb' r' c',
      (stage1 [[[[["te", "xt"]]]]])[0]? = some tb' ∧ tb'[0]? = some r' ∧
        r'[0]? = some c' ∧
        c'[0]? = some (tupleStr [0, 0, 0, 0] ++ " " ++ pyJoin "" ["te", "xt"])) ∧
    ∃ a b, get_html_map (toSTree [[[[["te", "xt"]]]]])
      = a ++ ("<pre>" ++ (tupleStr [0, 0, 0, 0] ++ " " ++ pyJoin "" ["te", "xt"]) ++ "</pre>") ++ b :=
  claim_C7 [[[[["te", "xt"]]]]] 0 0 0 0 _ _ _ _ rfl rfl rfl rfl
